import Mathlib

/-!
# Verification model of the DUMP() logging helper

Shallow embedding of `src/dump/include/dump/dump.hpp`.

The header defines a macro `DUMP(expr1, ..., exprN)` that expands to
`DUMP_INTERNAL((), expr1, ..., exprN)`, which builds a
`dump::internal_dump::Dump` object via `make_dump` from

  * `DumpNames` — the stringized source texts of the arguments
    (`DUMP_STRINGIFY`), and
  * a lambda capturing the call site by reference (`[ & ... ]`) whose body
    evaluates the argument expressions and streams them through the
    `print_fields` function object.

Modelling conventions used throughout this file:

  * `σ` is the ambient program state at the call site.  The generated
    lambda captures call-site variables by reference, so every render reads
    the state that is current at render time; we therefore model a captured
    argument (`DumpArg`) as a pair of its stringized source text and its
    evaluation function `σ → String`.  Streaming a value with `operator<<`
    is modelled by that evaluation function returning the value's text.
  * An `std::ostream` is modelled as the `String` accumulated so far;
    writing appends.
  * `std::vector::operator[]` performs no bounds check; an out-of-range
    read of the label vector is undefined behaviour, modelled as `none`.
    A render that returns `some s` performed only in-range label accesses.
  * The C++ preprocessor arity machinery (`DUMP_NARG`, `DUMP_FOR_EACH`) is
    modelled on lists of argument tokens; `none` means the expansion names
    an undefined macro or calls a macro with a mismatched argument count,
    i.e. translation fails before the program runs.
-/

/-- `dump::internal_dump::DumpNames`, the label vector. -/
abbrev DumpNames := List String

/-- The `dump::internal_dump::print_fields` function object (dump.hpp lines
249-268).  Its three `operator()` overloads print nothing for zero values,
`names[n] << kv_sep << t` for the last value, and
`names[n] << kv_sep << t1 << field_sep` followed by a recursive call for two
or more values.  `os` is the output accumulated so far, `n` the running
label index.  `names[n]` is an unchecked `std::vector` access, modelled by
`names[n]?` with `none` for the out-of-range case. -/
def print_fields (os field_sep kv_sep : String) (names : DumpNames) (n : Nat) :
    List String → Option String
  | [] => some os
  | [t] => (names[n]?).map (fun nm => os ++ nm ++ kv_sep ++ t)
  | t1 :: t2 :: ts =>
      (names[n]?).bind (fun nm =>
        print_fields (os ++ nm ++ kv_sep ++ t1 ++ field_sep) field_sep kv_sep
          names (n + 1) (t2 :: ts))

/-- The `dump::internal_dump::Dump<F>` class (dump.hpp lines 271-343),
holding the two separators, the label vector and the render closure `f_`.
The closure's C++ signature is
`(std::ostream&, const std::string& field_sep, const std::string& kv_sep,
const DumpNames&)`; the extra leading `σ` is the ambient call-site state the
lambda captured by reference. -/
structure Dump (σ : Type) where
  field_sep : String
  kv_sep : String
  names : DumpNames
  f : σ → String → String → String → DumpNames → Option String

variable {σ : Type}

/-- `Dump::print_fields_` (dump.hpp lines 326-337): calls
`f_(os, field_sep_, kv_sep_, names_)`.  The brace-printing variant in the
source is commented out and does not execute. -/
def Dump.print_fields_ (d : Dump σ) (env : σ) (os : String) : Option String :=
  d.f env os d.field_sep d.kv_sep d.names

/-- `operator<<(std::ostream&, const Dump&)` (dump.hpp lines 318-323):
streams the record into `os` via `print_fields_` and returns the stream. -/
def streamDump (os : String) (d : Dump σ) (env : σ) : Option String :=
  d.print_fields_ env os

/-- `Dump::str` (dump.hpp lines 286-290): streams `*this` into a fresh
`std::ostringstream` and returns its contents. -/
def Dump.str (d : Dump σ) (env : σ) : Option String :=
  streamDump "" d env

/-- `Dump::as` (dump.hpp lines 292-300): returns a new `Dump` with the same
separators and the same closure `f_`, and with `names_` replaced by exactly
the labels supplied (`DumpNames{names...}`).  No length validation occurs. -/
def Dump.as (d : Dump σ) (ns : List String) : Dump σ :=
  { field_sep := d.field_sep, kv_sep := d.kv_sep, names := ns, f := d.f }

/-- One-argument `Dump::sep` overload (dump.hpp lines 302-305): replaces
the field separator only. -/
def Dump.sep (d : Dump σ) (fs : String) : Dump σ :=
  { d with field_sep := fs }

/-- Two-argument `Dump::sep` overload (dump.hpp lines 307-311): replaces
both separators. -/
def Dump.sep2 (d : Dump σ) (fs kvs : String) : Dump σ :=
  { d with field_sep := fs, kv_sep := kvs }

/-- `dump::internal_dump::make_dump` (dump.hpp lines 345-356): builds a
`Dump` with default separators `", "` and `" = "`. -/
def make_dump (names : DumpNames)
    (f : σ → String → String → String → DumpNames → Option String) : Dump σ :=
  { field_sep := ", ", kv_sep := " = ", names := names, f := f }

/-- One captured argument of `DUMP`: its stringized source text
(`DUMP_STRINGIZE`) paired with its evaluation, a function of the ambient
state because the macro's lambda captures the call site by reference and
evaluates the expression anew inside the closure body at every render. -/
abbrev DumpArg (σ : Type) := String × (σ → String)

/-- The body of the lambda generated by `DUMP_INTERNAL` (dump.hpp lines
228-240): evaluate the argument expressions in the current state and hand
them to `print_fields` with `n = 0`. -/
def dumpLambda (args : List (DumpArg σ)) :
    σ → String → String → String → DumpNames → Option String :=
  fun env os field_sep kv_sep names =>
    print_fields os field_sep kv_sep names 0 (args.map (fun a => a.2 env))

/-- `DUMP_INTERNAL(binding, ...)` (dump.hpp lines 225-241):
`make_dump(DumpNames{DUMP_STRINGIFY(...)}, lambda)`.  The stringized labels
are the first components of `args`, in argument order.  The `binding` list
only adds explicit by-reference captures for structured bindings; the
ambient state `σ` already models all by-reference captures. -/
def DUMP_INTERNAL (args : List (DumpArg σ)) : Dump σ :=
  make_dump (args.map Prod.fst) (dumpLambda args)

/-- `DUMP(...)` (dump.hpp line 206): `DUMP_INTERNAL((), __VA_ARGS__)`. -/
def DUMP (args : List (DumpArg σ)) : Dump σ :=
  DUMP_INTERNAL args

/-- `DUMP_RSEQ_N()` (dump.hpp line 190): the reversed counting sequence
appended after the user arguments. -/
def DUMP_RSEQ_N : List String := ["8", "7", "6", "5", "4", "3", "2", "1", "0"]

/-- `DUMP_ARG_N(_1, ..., _8, N, ...)` (dump.hpp line 189): selects the
ninth macro argument. -/
def DUMP_ARG_N (tokens : List String) : Option String := tokens[8]?

/-- `DUMP_NARG(...)` (dump.hpp lines 187-188): pastes the user arguments in
front of `DUMP_RSEQ_N()` and selects the ninth token.  For up to eight user
arguments this yields their count as a digit token; for nine or more it
yields a user token. -/
def DUMP_NARG (args : List String) : Option String :=
  DUMP_ARG_N (args ++ DUMP_RSEQ_N)

/-- Which expander macros `DUMP_FOR_EACH_N<t>` exist (dump.hpp lines
192-200): exactly the digit suffixes `0` through `8`.  Token-pasting any
other suffix names an undefined macro, a translation-time error, modelled
as `none`. -/
def forEachArity (t : String) : Option Nat :=
  if t = "0" then some 0
  else if t = "1" then some 1
  else if t = "2" then some 2
  else if t = "3" then some 3
  else if t = "4" then some 4
  else if t = "5" then some 5
  else if t = "6" then some 6
  else if t = "7" then some 7
  else if t = "8" then some 8
  else none

/-- Expansion of `DUMP_FOR_EACH_Nk(F, a, ...)` (dump.hpp lines 192-200):
`F(a)` prepended to the expansion of `DUMP_FOR_EACH_N(k-1)` on the rest.
Each expander is written for exactly `k` arguments; invoking one with a
mismatched argument count is a translation-time error, modelled as
`none`. -/
def DUMP_FOR_EACH_N (F : String → String) : Nat → List String → Option (List String)
  | 0, [] => some []
  | 1, [a] => some [F a]
  | k + 2, a :: b :: rest =>
      (DUMP_FOR_EACH_N F (k + 1) (b :: rest)).map (fun s => F a :: s)
  | _, _ => none

/-- `DUMP_FOR_EACH(F, ...)` (dump.hpp lines 202-204): concatenates
`DUMP_FOR_EACH_N` with the token produced by `DUMP_NARG` and applies the
resulting macro to the argument list. -/
def DUMP_FOR_EACH (F : String → String) (args : List String) : Option (List String) :=
  (DUMP_NARG args).bind (fun t =>
    (forEachArity t).bind (fun k => DUMP_FOR_EACH_N F k args))

/-- `DUMP_STRINGIZE(a)` (dump.hpp lines 210-212): the token's source text
as a string literal; on already-stringized tokens this is the identity. -/
def DUMP_STRINGIZE (a : String) : String := a

/-- `DUMP_STRINGIFY(...)` (dump.hpp line 213): stringizes every argument
via `DUMP_FOR_EACH`, producing the `DumpNames` initializer list. -/
def DUMP_STRINGIFY (args : List String) : Option (List String) :=
  DUMP_FOR_EACH DUMP_STRINGIZE args

/-- The label/value pairs of a render: each label glued to its value by the
key-value separator, in order.  `List.zipWith` pairs positionally and stops
at the shorter list. -/
def renderedPairs (kv_sep : String) (labels values : List String) : List String :=
  List.zipWith (fun nm v => nm ++ kv_sep ++ v) labels values

/-- Concatenation with a separator between consecutive elements and nothing
at either end — the field-separator placement of `print_fields`. -/
def joinSep (field_sep : String) : List String → String
  | [] => ""
  | [s] => s
  | s :: t :: ts => s ++ field_sep ++ joinSep field_sep (t :: ts)

/-- Proof-side restatement of `print_fields` that walks the label list
structurally instead of indexing it; related to `print_fields` by
`print_fields_eq_pfRun`. -/
def pfRun (os field_sep kv_sep : String) : List String → List String → Option String
  | _, [] => some os
  | [], _ :: _ => none
  | nm :: _, [t] => some (os ++ nm ++ kv_sep ++ t)
  | nm :: nms, t1 :: t2 :: ts =>
      pfRun (os ++ nm ++ kv_sep ++ t1 ++ field_sep) field_sep kv_sep nms (t2 :: ts)

/-- Concrete capture of one argument: `DUMP(5)` from the test file, an
expression whose source text is `5` and whose value prints as `5`. -/
def exArgs1 : List (DumpArg Unit) := [("5", fun _ => "5")]

/-- Concrete capture of two arguments: `DUMP(foo, bar)` with `foo = 42` and
`bar = 24`, from the TwoValues test. -/
def exArgs2 : List (DumpArg Unit) := [("foo", fun _ => "42"), ("bar", fun _ => "24")]

/-- `print_fields` starting at label index `n` behaves like `pfRun` on the
label suffix `names.drop n`. -/
theorem print_fields_eq_pfRun (field_sep kv_sep : String) (values : List String) :
    ∀ (names : DumpNames) (n : Nat) (os : String),
      print_fields os field_sep kv_sep names n values =
        pfRun os field_sep kv_sep (names.drop n) values := by
  induction values with
  | nil => intro names n os; simp [print_fields, pfRun]
  | cons t ts ih =>
    intro names n os
    cases hd : names.drop n with
    | nil =>
      have hlen : names.length ≤ n := by
        have := congrArg List.length hd
        simp [List.length_drop] at this
        omega
      have hget : names[n]? = none := List.getElem?_eq_none hlen
      cases ts with
      | nil => simp [print_fields, pfRun, hget]
      | cons t2 ts2 => simp [print_fields, pfRun, hget]
    | cons nm rest =>
      have hget : names[n]? = some nm := by
        have h0 : (names.drop n)[0]? = some nm := by rw [hd]; simp
        rwa [List.getElem?_drop, Nat.add_zero] at h0
      cases ts with
      | nil => simp [print_fields, pfRun, hget]
      | cons t2 ts2 =>
        have hrest : names.drop (n + 1) = rest := by
          have h1 : (names.drop n).tail = rest := by rw [hd]; rfl
          rwa [List.tail_drop] at h1
        simp only [print_fields, pfRun, hget, Option.some_bind]
        rw [ih names (n + 1), hrest]

/-- With at least as many labels as values, `pfRun` succeeds and appends to
`os` the label/value pairs joined by the field separator. -/
theorem pfRun_of_le (field_sep kv_sep : String) (values : List String) :
    ∀ (nms : List String) (os : String), values.length ≤ nms.length →
      pfRun os field_sep kv_sep nms values =
        some (os ++ joinSep field_sep (renderedPairs kv_sep nms values)) := by
  induction values with
  | nil => intro nms os _; simp [pfRun, renderedPairs, joinSep]
  | cons t ts ih =>
    intro nms os h
    cases nms with
    | nil => simp at h
    | cons nm rest =>
      cases ts with
      | nil => simp [pfRun, renderedPairs, joinSep, String.append_assoc]
      | cons t2 ts2 =>
        cases rest with
        | nil => simp at h
        | cons r2 rs =>
          have h2 : (t2 :: ts2).length ≤ (r2 :: rs).length := by
            simp at h ⊢; omega
          simp only [pfRun]
          rw [ih _ _ h2]
          simp [renderedPairs, joinSep, String.append_assoc]

/-- With fewer labels than values, `pfRun` runs off the end of the label
list: the render performs an out-of-range label access. -/
theorem pfRun_of_lt (field_sep kv_sep : String) (values : List String) :
    ∀ (nms : List String) (os : String), nms.length < values.length →
      pfRun os field_sep kv_sep nms values = none := by
  induction values with
  | nil => intro nms os h; simp at h
  | cons t ts ih =>
    intro nms os h
    cases nms with
    | nil => cases ts <;> simp [pfRun]
    | cons nm rest =>
      cases ts with
      | nil => simp at h
      | cons t2 ts2 =>
        have h2 : rest.length < (t2 :: ts2).length := by simp at h ⊢; omega
        simp only [pfRun]
        exact ih _ _ h2

/-- `pfRun` only ever reads the first `values.length` labels: labels beyond
the value count never influence the output. -/
theorem pfRun_take (field_sep kv_sep : String) (values : List String) :
    ∀ (nms : List String) (os : String),
      pfRun os field_sep kv_sep nms values =
        pfRun os field_sep kv_sep (nms.take values.length) values := by
  induction values with
  | nil => intro nms os; simp [pfRun]
  | cons t ts ih =>
    intro nms os
    cases nms with
    | nil => simp
    | cons nm rest =>
      cases ts with
      | nil => simp [pfRun]
      | cons t2 ts2 =>
        simp only [pfRun, List.length_cons, List.take_succ_cons]
        exact ih _ _

/-- Appending on the left of a string is cancellable. -/
theorem string_append_left_cancel (a b c : String) (h : a ++ b = a ++ c) : b = c := by
  have hd := congrArg String.data h
  simp only [String.data_append] at hd
  exact String.ext (List.append_cancel_left hd)

/-- Streaming any record whose closure was generated by `DUMP_INTERNAL`
reduces to `pfRun` on its current labels and the values evaluated in the
current state. -/
theorem streamDump_mk (field_sep kv_sep : String) (ns : DumpNames)
    (args : List (DumpArg σ)) (env : σ) (os : String) :
    streamDump os (Dump.mk field_sep kv_sep ns (dumpLambda args)) env =
      pfRun os field_sep kv_sep ns (args.map (fun a => a.2 env)) := by
  show print_fields os field_sep kv_sep ns 0 (args.map (fun a => a.2 env)) = _
  rw [print_fields_eq_pfRun, List.drop_zero]

/-- The pairs rendered from the labels and values that `DUMP` itself
produces are the arguments' source texts glued to their evaluations. -/
theorem renderedPairs_map (kv_sep : String) (env : σ) (args : List (DumpArg σ)) :
    renderedPairs kv_sep (args.map Prod.fst) (args.map (fun a => a.2 env)) =
      args.map (fun a => a.1 ++ kv_sep ++ a.2 env) := by
  induction args with
  | nil => rfl
  | cons a rest ih => simp only [renderedPairs] at ih ⊢; simp [ih]

/-- The pairs rendered from replacement labels `ns` against the values of
`args` pair them positionally. -/
theorem renderedPairs_zip (kv_sep : String) (env : σ) :
    ∀ (ns : List String) (args : List (DumpArg σ)),
      renderedPairs kv_sep ns (args.map (fun a => a.2 env)) =
        List.zipWith (fun nm a => nm ++ kv_sep ++ a.2 env) ns args := by
  intro ns
  induction ns with
  | nil => intro args; rfl
  | cons nm rest ih =>
    intro args
    cases args with
    | nil => rfl
    | cons a as =>
      simp only [renderedPairs] at ih ⊢
      simp [ih]

/-- Rendering a single captured argument: the label, the default key-value
separator, and the argument evaluated in the render-time state. -/
theorem dump_single_render (nm : String) (v : σ → String) (s : σ) :
    (DUMP [(nm, v)]).str s = some (nm ++ " = " ++ v s) := by
  have h1 : (DUMP [(nm, v)]).str s =
      pfRun "" ", " " = " [nm] ([(nm, v)].map (fun a => a.2 s)) :=
    streamDump_mk ", " " = " [nm] [(nm, v)] s ""
  rw [h1]
  simp [pfRun, String.append_assoc]

/-- For at most eight user arguments, `DUMP_NARG` selects a counting token
from `DUMP_RSEQ_N` and the expander it names has the argument count as its
arity. -/
theorem DUMP_NARG_arity_of_le (args : List String) (h : args.length ≤ 8) :
    (DUMP_NARG args).bind forEachArity = some args.length := by
  have hr : DUMP_NARG args = DUMP_RSEQ_N[(8 - args.length)]? := by
    unfold DUMP_NARG DUMP_ARG_N
    exact List.getElem?_append_right h
  rw [hr]
  obtain ⟨n, hn⟩ : ∃ n, args.length = n := ⟨_, rfl⟩
  rw [hn] at h ⊢
  interval_cases n <;> rfl

/-- For nine or more user arguments, `DUMP_NARG` selects the ninth user
token, not a counting token. -/
theorem DUMP_NARG_of_gt (args : List String) (h : 8 < args.length) :
    DUMP_NARG args = args[8]? := by
  unfold DUMP_NARG DUMP_ARG_N
  exact List.getElem?_append_left h

/-- Every existing expander macro has arity at most eight. -/
theorem forEachArity_le (t : String) (k : Nat) (h : forEachArity t = some k) :
    k ≤ 8 := by
  unfold forEachArity at h
  split_ifs at h <;> simp at h <;> omega

/-- Invoking `DUMP_FOR_EACH_Nk` with exactly `k` arguments expands to `F`
applied to each argument, in order. -/
theorem DUMP_FOR_EACH_N_of_eq (F : String → String) :
    ∀ (args : List String) (k : Nat), args.length = k →
      DUMP_FOR_EACH_N F k args = some (args.map F) := by
  intro args
  induction args with
  | nil =>
    intro k hk
    subst hk
    rfl
  | cons a rest ih =>
    intro k hk
    subst hk
    cases rest with
    | nil => rfl
    | cons b rs =>
      have hstep : (a :: b :: rs).length = rs.length + 2 := by simp
      rw [hstep]
      simp only [DUMP_FOR_EACH_N]
      rw [ih (rs.length + 1) (by simp)]
      simp

/-- Invoking `DUMP_FOR_EACH_Nk` with any other argument count fails: some
macro in the chain receives a mismatched argument count. -/
theorem DUMP_FOR_EACH_N_of_ne (F : String → String) :
    ∀ (args : List String) (k : Nat), args.length ≠ k →
      DUMP_FOR_EACH_N F k args = none := by
  intro args
  induction args with
  | nil =>
    intro k hk
    match k with
    | 0 => exact absurd rfl hk
    | 1 => rfl
    | k + 2 => rfl
  | cons a rest ih =>
    intro k hk
    match k with
    | 0 => cases rest <;> rfl
    | 1 =>
      cases rest with
      | nil => exact absurd rfl hk
      | cons b rs => rfl
    | k + 2 =>
      cases rest with
      | nil => rfl
      | cons b rs =>
        have h2 : (b :: rs).length ≠ k + 1 := by simp at hk ⊢; omega
        simp only [DUMP_FOR_EACH_N]
        rw [ih (k + 1) h2]
        rfl

/-- `DUMP_FOR_EACH` expands to `F` mapped over the arguments when there are
at most eight of them, and fails to expand (a translation-time error) for
nine or more. -/
theorem DUMP_FOR_EACH_arity (F : String → String) (args : List String) :
    DUMP_FOR_EACH F args = if args.length ≤ 8 then some (args.map F) else none := by
  by_cases h : args.length ≤ 8
  · rw [if_pos h]
    have hb := DUMP_NARG_arity_of_le args h
    obtain ⟨t, ht, hk⟩ := Option.bind_eq_some.mp hb
    unfold DUMP_FOR_EACH
    rw [ht, Option.some_bind, hk, Option.some_bind]
    exact DUMP_FOR_EACH_N_of_eq F args args.length rfl
  · rw [if_neg h]
    push_neg at h
    unfold DUMP_FOR_EACH
    rw [DUMP_NARG_of_gt args h, List.getElem?_eq_getElem h, Option.some_bind]
    cases hfa : forEachArity (args[8]) with
    | none => rfl
    | some k =>
      rw [Option.some_bind]
      exact DUMP_FOR_EACH_N_of_ne F args k (by have := forEachArity_le _ _ hfa; omega)

/-- Claim C2 (code bug): rendering a record captured from zero arguments —
both streamed into a sink via `operator<<` and materialized via `str()` —
writes nothing at all: the zero-argument `print_fields::operator()` has an
empty body and `Dump::print_fields_` prints no delimiters (its brace-printing
block is commented out).  The output is the empty string, not the canonical
empty-record string claimed (and expected by the repository's own
`DumpVars.Empty` test, which requires both render paths of `DUMP()` to
produce exactly the two-character brace pair). -/
theorem C2_zero_args_renders_nothing :
    (DUMP ([] : List (DumpArg Unit))).str () = some "" ∧
    streamDump "sink" (DUMP ([] : List (DumpArg Unit))) () = some "sink" ∧
    (DUMP ([] : List (DumpArg Unit))).str () ≠ some "\x7b\x7d" := by
  refine ⟨rfl, rfl, by decide⟩

/-- Claim C3 (confirmed): for every N in 0..8, capturing N expressions and
rendering yields exactly N label/value pairs, in argument order: each pair
is the argument's stringized source text, then the key-value separator
`" = "`, then the value evaluated at render time, with the field separator
`", "` between consecutive pairs and nothing else. -/
theorem C3_render_exact_pairs (args : List (DumpArg σ)) (env : σ)
    (h : args.length ≤ 8) :
    (DUMP args).str env =
        some (joinSep ", " (args.map (fun a => a.1 ++ " = " ++ a.2 env))) ∧
      (args.map (fun a => a.1 ++ " = " ++ a.2 env)).length = args.length := by
  refine ⟨?_, by simp⟩
  have h1 : (DUMP args).str env =
      pfRun "" ", " " = " (args.map Prod.fst) (args.map (fun a => a.2 env)) :=
    streamDump_mk ", " " = " (args.map Prod.fst) args env ""
  rw [h1, pfRun_of_le _ _ _ _ _ (by simp), renderedPairs_map]
  simp

/-- Witness for C3: `DUMP(foo, bar)` with `foo = 42`, `bar = 24` renders as
two pairs in argument order. -/
theorem C3_witness :
    exArgs2.length ≤ 8 ∧
    ((DUMP exArgs2).str () =
        some (joinSep ", " (exArgs2.map (fun a => a.1 ++ " = " ++ a.2 ()))) ∧
      (exArgs2.map (fun a => a.1 ++ " = " ++ a.2 ())).length = exArgs2.length) :=
  ⟨by decide, C3_render_exact_pairs exArgs2 () (by decide)⟩

/-- Claim C4 (confirmed): the macro's lambda captures the call site by
reference and evaluates the argument inside its body, so rendering shows
the variable's value in the render-time state `s1`, not the value the
variable had in any earlier state `s0` (capture time); renders in different
states show different values. -/
theorem C4_mutation_visible_at_render (nm : String) (v : σ → String)
    (s0 s1 : σ) (h : v s0 ≠ v s1) :
    (DUMP [(nm, v)]).str s1 = some (nm ++ " = " ++ v s1) ∧
    (DUMP [(nm, v)]).str s1 ≠ some (nm ++ " = " ++ v s0) ∧
    (DUMP [(nm, v)]).str s0 ≠ (DUMP [(nm, v)]).str s1 := by
  refine ⟨dump_single_render nm v s1, ?_, ?_⟩
  · rw [dump_single_render nm v s1]
    intro he
    exact h (string_append_left_cancel (nm ++ " = ") (v s0) (v s1)
      (Option.some.inj he).symm)
  · rw [dump_single_render nm v s0, dump_single_render nm v s1]
    intro he
    exact h (string_append_left_cancel (nm ++ " = ") (v s0) (v s1)
      (Option.some.inj he))

/-- Witness for C4: a variable rendering as `0` in the capture-time state
and as `1` in the render-time state is shown with value `1`. -/
theorem C4_witness :
    ((fun s : String => s) "0" ≠ (fun s : String => s) "1") ∧
    ((DUMP [("a", fun s : String => s)]).str "1" =
        some ("a" ++ " = " ++ (fun s : String => s) "1") ∧
      (DUMP [("a", fun s : String => s)]).str "1" ≠
        some ("a" ++ " = " ++ (fun s : String => s) "0") ∧
      (DUMP [("a", fun s : String => s)]).str "0" ≠
        (DUMP [("a", fun s : String => s)]).str "1") :=
  ⟨by decide, C4_mutation_visible_at_render "a" (fun s => s) "0" "1" (by decide)⟩

/-- Claim C5 (counterexample): the value of a captured computed expression
is NOT frozen at first evaluation.  The closure re-evaluates the expression
at every render (dump.hpp lines 92-95 document exactly this), so a
computed expression `f()` that reads mutable program state renders
differently once the state changes between two renders of the same
record. -/
theorem C5_counterexample :
    (DUMP [("f()", fun s : String => s)]).str "first" ≠
      (DUMP [("f()", fun s : String => s)]).str "second" := by
  decide

/-- Claim C5 (amended): rendering a captured computed expression evaluates
the expression anew inside the closure at render time — never through a
reference to the call-site temporary, so no render reads a dead temporary —
and repeated renders of an expression whose value does not depend on
mutable state yield the same value every time because each re-evaluation
produces it again (not because it was frozen at first evaluation). -/
theorem C5_reevaluated_each_render (nm : String) (e : σ → String) (s : σ)
    (c : String) :
    (DUMP [(nm, e)]).str s = some (nm ++ " = " ++ e s) ∧
    (∀ s1 s2 : σ,
      (DUMP [(nm, fun _ => c)]).str s1 = (DUMP [(nm, fun _ => c)]).str s2) :=
  ⟨dump_single_render nm e s, fun _ _ => rfl⟩

/-- Claim C1 (counterexample): a replacement label list whose length
differs from the captured value count is NOT rejected at the relabel call.
`DUMP(5).as("x", "y")` — one captured value, two labels — returns a
perfectly usable record carrying both labels, and rendering it succeeds,
silently dropping the excess label `y` (the repository's own NamesOverride
test calls `as` with mismatched counts in exactly this way). -/
theorem C1_counterexample :
    ((DUMP exArgs1).as ["x", "y"]).names = ["x", "y"] ∧
    ((DUMP exArgs1).as ["x", "y"]).str () = some "x = 5" := by
  exact ⟨rfl, by decide⟩

/-- Claim C1 (amended): `Dump::as` performs no size validation at the
relabel call: it accepts a replacement list of any length and stores it
verbatim.  A size mismatch surfaces only at render time: when the list has
at least as many labels as there are values, rendering succeeds, pairing
labels with values positionally and silently ignoring the excess labels;
when it has fewer, every render performs an out-of-range access of the
label vector. -/
theorem C1_as_unvalidated (args : List (DumpArg σ)) (ns : List String) (env : σ) :
    ((DUMP args).as ns).names = ns ∧
    ((DUMP args).as ns).str env =
      (if args.length ≤ ns.length then
        some (joinSep ", " (List.zipWith (fun nm a => nm ++ " = " ++ a.2 env) ns args))
      else none) := by
  refine ⟨rfl, ?_⟩
  have h1 : ((DUMP args).as ns).str env =
      pfRun "" ", " " = " ns (args.map (fun a => a.2 env)) :=
    streamDump_mk ", " " = " ns args env ""
  rw [h1]
  by_cases h : args.length ≤ ns.length
  · rw [if_pos h, pfRun_of_le _ _ _ _ _ (by simp [h]), renderedPairs_zip]
    simp
  · rw [if_neg h]
    exact pfRun_of_lt _ _ _ _ _ (by simp; omega)

/-- Claim C6 (confirmed): rendering indexes the label vector at positions
`0..N-1` for the `N` captured values with no bounds check, so a render is
free of out-of-range label access (returns `some`) exactly when the
record's label count is at least `N`; in particular `as()` with fewer
labels than values makes every subsequent render go out of range (`none`),
while labels beyond position `N-1` never influence the output — `as()`
with more labels renders safely and silently ignores the excess. -/
theorem C6_unchecked_label_indexing (args : List (DumpArg σ)) (ns : List String)
    (env : σ) :
    ((((DUMP args).as ns).str env).isSome ↔ args.length ≤ ns.length) ∧
    ((DUMP args).as ns).str env = ((DUMP args).as (ns.take args.length)).str env := by
  have h1 : ((DUMP args).as ns).str env =
      pfRun "" ", " " = " ns (args.map (fun a => a.2 env)) :=
    streamDump_mk ", " " = " ns args env ""
  have h2 : ((DUMP args).as (ns.take args.length)).str env =
      pfRun "" ", " " = " (ns.take args.length) (args.map (fun a => a.2 env)) :=
    streamDump_mk ", " " = " (ns.take args.length) args env ""
  constructor
  · rw [h1]
    rcases le_or_lt ((args.map (fun a => a.2 env)).length) (ns.length) with hle | hlt
    · rw [pfRun_of_le _ _ _ _ _ hle]
      simp at hle
      simpa using hle
    · rw [pfRun_of_lt _ _ _ _ _ hlt]
      simp at hlt ⊢
      omega
  · rw [h1, h2]
    have h3 := pfRun_take ", " " = " (args.map (fun a => a.2 env)) ns ""
    simpa using h3

/-- Claim C7 (confirmed): the one-argument `sep` overload replaces only the
field separator — the key-value separator keeps its current value (the
default, or whatever an earlier `sep` call set), and the labels, the
closure (hence the captured values), and the rendered pairs are untouched —
while the two-argument overload replaces both separators. -/
theorem C7_sep_updates_only_given (args : List (DumpArg σ))
    (f0 k0 fs fs2 kv2 : String) (env : σ) :
    ((DUMP args).sep fs).kv_sep = " = " ∧
    (((DUMP args).sep2 f0 k0).sep fs).kv_sep = k0 ∧
    ((DUMP args).sep fs).names = (DUMP args).names ∧
    ((DUMP args).sep fs).f = (DUMP args).f ∧
    ((DUMP args).sep fs).str env =
      some (joinSep fs (args.map (fun a => a.1 ++ " = " ++ a.2 env))) ∧
    ((DUMP args).sep2 fs2 kv2).str env =
      some (joinSep fs2 (args.map (fun a => a.1 ++ kv2 ++ a.2 env))) := by
  refine ⟨rfl, rfl, rfl, rfl, ?_, ?_⟩
  · have h1 : ((DUMP args).sep fs).str env =
        pfRun "" fs " = " (args.map Prod.fst) (args.map (fun a => a.2 env)) :=
      streamDump_mk fs " = " (args.map Prod.fst) args env ""
    rw [h1, pfRun_of_le _ _ _ _ _ (by simp), renderedPairs_map]
    simp
  · have h2 : ((DUMP args).sep2 fs2 kv2).str env =
        pfRun "" fs2 kv2 (args.map Prod.fst) (args.map (fun a => a.2 env)) :=
      streamDump_mk fs2 kv2 (args.map Prod.fst) args env ""
    rw [h2, pfRun_of_le _ _ _ _ _ (by simp), renderedPairs_map]
    simp

/-- Claim C8 (confirmed): relabeling with a replacement list of the correct
length returns a record that renders the new labels positionally against
the same captured values, with the same separators and the same closure as
the original; only the displayed labels change. -/
theorem C8_relabel_changes_only_labels (args : List (DumpArg σ))
    (ns : List String) (env : σ) (h : ns.length = args.length) :
    ((DUMP args).as ns).str env =
      some (joinSep ", " (List.zipWith (fun nm a => nm ++ " = " ++ a.2 env) ns args)) ∧
    ((DUMP args).as ns).field_sep = (DUMP args).field_sep ∧
    ((DUMP args).as ns).kv_sep = (DUMP args).kv_sep ∧
    ((DUMP args).as ns).f = (DUMP args).f := by
  refine ⟨?_, rfl, rfl, rfl⟩
  have h1 : ((DUMP args).as ns).str env =
      pfRun "" ", " " = " ns (args.map (fun a => a.2 env)) :=
    streamDump_mk ", " " = " ns args env ""
  rw [h1, pfRun_of_le _ _ _ _ _ (by simp [h]), renderedPairs_zip]
  simp

/-- Witness for C8: `DUMP(foo, bar).as("x", "y")` renders the new labels
against the original values with the default separators. -/
theorem C8_witness :
    (["x", "y"].length = exArgs2.length) ∧
    (((DUMP exArgs2).as ["x", "y"]).str () =
        some (joinSep ", "
          (List.zipWith (fun nm a => nm ++ " = " ++ a.2 ()) ["x", "y"] exArgs2)) ∧
      ((DUMP exArgs2).as ["x", "y"]).field_sep = (DUMP exArgs2).field_sep ∧
      ((DUMP exArgs2).as ["x", "y"]).kv_sep = (DUMP exArgs2).kv_sep ∧
      ((DUMP exArgs2).as ["x", "y"]).f = (DUMP exArgs2).f) :=
  ⟨by decide, C8_relabel_changes_only_labels exArgs2 ["x", "y"] () (by decide)⟩

/-- Claim C9 (confirmed): for every reachable record — any capture,
followed by any relabeling and any separator configuration — `str()`
returns exactly the character sequence that `operator<<` appends to a sink:
streaming into `os` yields `os` followed by the `str()` text, and the two
paths fail together (both are the same `print_fields` pass). -/
theorem C9_str_matches_stream (args : List (DumpArg σ)) (ns : List String)
    (fs kv : String) (env : σ) (os : String) :
    streamDump os (((DUMP args).as ns).sep2 fs kv) env =
      ((((DUMP args).as ns).sep2 fs kv).str env).map (fun s => os ++ s) := by
  have h1 : streamDump os (((DUMP args).as ns).sep2 fs kv) env =
      pfRun os fs kv ns (args.map (fun a => a.2 env)) :=
    streamDump_mk fs kv ns args env os
  have h2 : (((DUMP args).as ns).sep2 fs kv).str env =
      pfRun "" fs kv ns (args.map (fun a => a.2 env)) :=
    streamDump_mk fs kv ns args env ""
  rw [h1, h2]
  rcases le_or_lt ((args.map (fun a => a.2 env)).length) (ns.length) with hle | hlt
  · rw [pfRun_of_le _ _ _ _ _ hle, pfRun_of_le _ _ _ _ _ hle]
    simp
  · rw [pfRun_of_lt _ _ _ _ _ hlt, pfRun_of_lt _ _ _ _ _ hlt]
    rfl

/-- Claim C10 (confirmed): the argument-stringification step of the capture
macro expands for exactly 0 through 8 arguments; with nine or more, either
the token pasted by `DUMP_NARG` names no existing `DUMP_FOR_EACH_N` macro
or the selected expander receives a mismatched argument count — in both
cases the translation unit fails to build, before the program runs, so the
rejection can never be a runtime failure. -/
theorem C10_exactly_eight_arguments (args : List String) :
    DUMP_STRINGIFY args = (if args.length ≤ 8 then some args else none) ∧
    ((DUMP_STRINGIFY args).isSome ↔ args.length ≤ 8) := by
  have h1 : DUMP_STRINGIFY args =
      if args.length ≤ 8 then some (args.map DUMP_STRINGIZE) else none :=
    DUMP_FOR_EACH_arity DUMP_STRINGIZE args
  have h2 : args.map DUMP_STRINGIZE = args := by
    clear h1
    induction args with
    | nil => rfl
    | cons a rest ih => simp only [List.map_cons, ih]; rfl
  rw [h2] at h1
  refine ⟨h1, ?_⟩
  rw [h1]
  by_cases h : args.length ≤ 8
  · simp [h]
  · simp [h]
